import Mathlib

/-!
Verification of the chat-statistics scripts (telegram-statistics repository).

The development shallowly embeds the two Python modules `src/stats.py`
(class `ChatStatistics`: `rebuild_msg`, the question-marking pass and the
reply-counting pass of `get_top_users`, `remove_stopwords`, the text
aggregation of `generate_word_cloud`) and `src/chat_statistics/graph.py`
(class `ChatGraph`: `red2blue`, the reply loop and the node-colouring stage
of `generate_graph`).

External collaborators (hazm's `sent_tokenize` / `word_tokenize` /
`Normalizer`, `demoji`) are passed in as function parameters: the spec
declares tokenization and emoji handling out of scope.  JSON optionality is
modelled by `Option (Option _)`: `none` is an absent key, `some none` a
key whose value is JSON `null`.  Python `int` arithmetic is `Nat`/`Int`;
the float `d = 256 / n` inside `red2blue` is modelled by exact integer
floors (`int(d * i) = 256 * i / n`, `int(256 - d * i) = (256*n - 256*i) / n`),
which agrees with the double-precision computation at every index reached
for `n ≤ 256` and is exact at `i = 0`.  A Python runtime error (KeyError,
NameError, ZeroDivisionError) is an `Option`/`Except` failure.
-/

/-- A formatted sub-message ("fragment") of a telegram message text list:
either a plain string or an object with a `type` tag and a `text` field. -/
inductive Frag where
  | fstr (s : String)
  | fobj (ftype : String) (ftext : String)
deriving DecidableEq, Repr

/-- The `text` field of a message: a plain string or a list of fragments. -/
inductive MText where
  | str (s : String)
  | list (fs : List Frag)
deriving DecidableEq, Repr

/-- One element of the chat export's `messages` list.  `none` models an
absent key and `some none` a JSON `null` value for the optional fields. -/
structure Message where
  id : Int
  mtype : String
  text : Option (Option MText)
  from_ : Option (Option String)
  from_id : String
  reply_to_message_id : Option (Option Int)
deriving DecidableEq, Repr

/-- The loaded chat export: the `messages` list plus whatever other
top-level keys the JSON file has (opaque payload `ρ`). -/
structure ChatData (ρ : Type) where
  messages : List Message
  rest : ρ

/-- Python's `str.join`: `sep.join(parts)`. -/
def pyJoin (sep : String) : List String → String
  | [] => ""
  | [x] => x
  | x :: y :: xs => x ++ sep ++ pyJoin sep (y :: xs)

/-- `ChatStatistics.rebuild_msg`: concatenate the plain strings and the
`text` fields of the fragment objects of a message's text list. -/
def rebuild_msg (fs : List Frag) : String :=
  fs.foldl (fun acc f => match f with
    | Frag.fstr s => acc ++ s
    | Frag.fobj _ t => acc ++ t) ""

/-- The string a message's text flattens to: a plain string is itself, a
fragment list is `rebuild_msg` of it (the value `msg['text']` holds after
the in-place `msg['text'] = rebuild_msg(...)` assignment). -/
def flatText : MText → String
  | MText.str s => s
  | MText.list fs => rebuild_msg fs

/-- Python truthiness of `msg.get('text')`: an absent key, a `null`, the
empty string and the empty list are all falsy. -/
def truthyText : Option (Option MText) → Bool
  | some (some (MText.str s)) => s ≠ ""
  | some (some (MText.list fs)) => !fs.isEmpty
  | _ => false

/-- The question test applied to one tokenized sentence: `'?' in sentence
or '؟' in sentence` (substring containment of a single character). -/
def hasQM (s : String) : Bool :=
  s.data.contains '?' || s.data.contains '؟'

/-- One iteration of the question-marking pass of
`ChatStatistics.get_top_users` (src/stats.py): skip falsy texts; flatten a
list text in place; record the message id in `is_question` when some
sentence produced by the (external) sentence tokenizer `st` contains a
question mark. -/
def quStep (st : String → List String) (acc : List Int × List Message)
    (m : Message) : List Int × List Message :=
  match m.text with
  | some (some (MText.str s)) =>
      if s ≠ "" then
        (if (st s).any hasQM then acc.1 ++ [m.id] else acc.1, acc.2 ++ [m])
      else (acc.1, acc.2 ++ [m])
  | some (some (MText.list fs)) =>
      if !fs.isEmpty then
        let m' := { m with text := some (some (MText.str (rebuild_msg fs))) }
        (if (st (rebuild_msg fs)).any hasQM then acc.1 ++ [m.id] else acc.1,
         acc.2 ++ [m'])
      else (acc.1, acc.2 ++ [m])
  | _ => (acc.1, acc.2 ++ [m])

/-- The whole question-marking pass: the marked ids and the mutated
message list. -/
def quPass (st : String → List String) (msgs : List Message) :
    List Int × List Message :=
  msgs.foldl (quStep st) ([], [])

/-- The reply-counting pass of `ChatStatistics.get_top_users`: skip
messages whose `reply_to_message_id` is falsy (absent, `null`, or `0`) or
whose target id is not marked as a question; append `msg['from']` (a
KeyError — `none` result — when the `from` key is absent, the JSON `null`
author when its value is null). -/
def raStep (marked : List Int) (acc : List (Option String)) (m : Message) :
    Option (List (Option String)) :=
  match m.reply_to_message_id with
  | some (some r) =>
      if r = 0 then some acc
      else if marked.contains r then
        match m.from_ with
        | none => none
        | some f => some (acc ++ [f])
      else some acc
  | _ => some acc

/-- The whole reply-counting pass. -/
def replyAuthors (marked : List Int) (msgs : List Message) :
    Option (List (Option String)) :=
  msgs.foldlM (raStep marked) []

/-- `collections.Counter` built from a list: an association list in first
occurrence order of the keys; a repeated element bumps its count in
place. -/
def bump {K : Type} [DecidableEq K] : List (K × Nat) → K → List (K × Nat)
  | [], u => [(u, 1)]
  | (k, c) :: rest, u =>
      if k = u then (k, c + 1) :: rest else (k, c) :: bump rest u

/-- `Counter(users)`: fold `bump` over the list. -/
def counterList {K : Type} [DecidableEq K] (us : List K) : List (K × Nat) :=
  us.foldl bump []

/-- Stable descending insertion on key `k`: the new element goes before
the first strictly smaller key, hence after every equal key. -/
def insertD {α : Type} (k : α → Nat) (x : α) : List α → List α
  | [] => [x]
  | h :: t => if k h < k x then x :: h :: t else h :: insertD k x t

/-- Stable descending sort on key `k` (the semantics of Python's stable
`sorted(..., reverse=True)` and of `heapq.nlargest`'s ordering). -/
def sortD {α : Type} (k : α → Nat) (l : List α) : List α :=
  l.foldl (fun acc x => insertD k x acc) []

/-- `Counter.most_common(n)`: the first `n` items of the stable descending
sort of the counter items by count (`heapq.nlargest` is stable: ties keep
the counter's insertion order).  A negative `n` yields the empty list. -/
def most_common {K : Type} [DecidableEq K]
    (items : List (K × Nat)) (n : Int) : List (K × Nat) :=
  (sortD (fun p => p.2) items).take n.toNat

/-- `ChatStatistics.get_top_users` (src/stats.py) acting on the whole
loaded chat data: returns `dict(Counter(users).most_common(top_n))` (as an
ordered association list, `none` on a KeyError) together with the chat
data after the call (the question pass mutates `text` fields in place). -/
def get_top_users_cd {ρ : Type} (st : String → List String)
    (cd : ChatData ρ) (top_n : Int) :
    Option (List (Option String × Nat)) × ChatData ρ :=
  let p := quPass st cd.messages
  ((replyAuthors p.1 p.2).map (fun us => most_common (counterList us) top_n),
   { messages := p.2, rest := cd.rest })

/-- `ChatStatistics.get_top_users` on a bare message list. -/
def get_top_users (st : String → List String) (msgs : List Message)
    (top_n : Int) : Option (List (Option String × Nat)) :=
  (get_top_users_cd st ⟨msgs, ()⟩ top_n).1

/-- `ChatStatistics.remove_stopwords`: tokenize the normalized text with
the (external) `word_tokenize` `wt` and `Normalizer.normalize` `norm`,
drop stop words, and rejoin with single spaces. -/
def remove_stopwords (norm : String → String) (wt : String → List String)
    (sw : List String) (text : String) : String :=
  pyJoin " " ((wt (norm text)).filter (fun tk => !sw.contains tk))

/-- The fragment-type whitelist of `generate_word_cloud`. -/
def wcTypes : List String :=
  ["text_link", "bold", "italic", "hashtag", "mention", "pre"]

/-- The per-fragment step of the text aggregation of
`ChatStatistics.generate_word_cloud` (src/stats.py): append
`" " + remove_stopwords(frag)` for a plain-string fragment and for an
object fragment whose type is whitelisted; drop other fragments. -/
def wcFragStep (norm : String → String) (wt : String → List String)
    (sw : List String) (a : String) (f : Frag) : String :=
  match f with
  | Frag.fstr s => a ++ " " ++ remove_stopwords norm wt sw s
  | Frag.fobj t x =>
      if wcTypes.contains t then a ++ " " ++ remove_stopwords norm wt sw x
      else a

/-- The per-message step of the text aggregation: skip falsy texts; loop
over the fragments of a list text; append the stop-word-removed string
text otherwise. -/
def wcStep (norm : String → String) (wt : String → List String)
    (sw : List String) (acc : String) (m : Message) : String :=
  match m.text with
  | some (some (MText.str s)) =>
      if s ≠ "" then acc ++ " " ++ remove_stopwords norm wt sw s else acc
  | some (some (MText.list fs)) =>
      if !fs.isEmpty then fs.foldl (wcFragStep norm wt sw) acc else acc
  | _ => acc

/-- The text-aggregation loop of `generate_word_cloud`. -/
def wcTextContent (norm : String → String) (wt : String → List String)
    (sw : List String) (msgs : List Message) : String :=
  msgs.foldl (wcStep norm wt sw) ""

/-- The fragment text `generate_word_cloud` keeps: a plain string, or the
text of an object fragment with a whitelisted type. -/
def fragKeep (f : Frag) : Option String :=
  match f with
  | Frag.fstr s => some s
  | Frag.fobj t x => if wcTypes.contains t then some x else none

/-- The fragment texts of one message that the aggregation keeps. -/
def msgFragments (m : Message) : List String :=
  match m.text with
  | some (some (MText.str s)) => [s]
  | some (some (MText.list fs)) => fs.filterMap fragKeep
  | _ => []

/-- Modelled from the spec's words "concatenate all textual content
(flattening formatted fragments)": the fragment texts the aggregation
keeps, in traversal order, for comparison with the code's
`wcTextContent`. -/
def keptFragments (msgs : List Message) : List String :=
  (msgs.filter (fun m => truthyText m.text)).flatMap msgFragments

/-- The in-place text mutation one message undergoes during the question
pass: a truthy (non-empty) fragment-list text is replaced by its
flattened string; everything else is left as it was. -/
def quMutate (m : Message) : Message :=
  match m.text with
  | some (some (MText.list fs)) =>
      if !fs.isEmpty then
        { m with text := some (some (MText.str (rebuild_msg fs))) }
      else m
  | _ => m

/-- Modelled from the spec's words "a sentence ending in a question mark":
the last character of the sentence is `?` or `؟`. -/
def endsWithQM (s : String) : Bool :=
  match s.data.getLast? with
  | some c => c = '?' || c = '؟'
  | none => false

/-- Modelled from the spec's words "first-seen order": the sequence of
first occurrences of the elements of a list. -/
def firstOccs {K : Type} [DecidableEq K] : List K → List K
  | [] => []
  | u :: rest => u :: (firstOccs rest).filter (fun v => v ≠ u)

/-- A concrete sentence tokenizer for witnesses and counterexamples: the
whole text is a single sentence.  This agrees with hazm's `sent_tokenize`
on every text that contains no sentence-final punctuation followed by
whitespace (hazm only breaks after such punctuation). -/
def oneSentence (t : String) : List String := [t]

/-- Runtime errors of `ChatGraph.generate_graph`. -/
inductive GErr where
  | nameError
  | keyError
  | zeroDiv
deriving DecidableEq, Repr

/-- The mutable locals of the reply loop of `ChatGraph.generate_graph`.
`reply_to` models the Python local variable of that name, which is only
(re)assigned when the replied-to id is a known message: `none` means the
name is still unbound. -/
structure GState where
  users : List (String × String)
  writer : List (Int × String)
  conections : List ((String × String) × Nat)
  interactions : List (String × Nat)
  reply_to : Option String
deriving DecidableEq, Repr

/-- The empty initial state of the reply loop. -/
def initG : GState := ⟨[], [], [], [], none⟩

/-- Association-list write with Python `dict` semantics: an existing key
keeps its position and gets the new value, a new key is appended. -/
def dictWrite {K V : Type} [DecidableEq K] :
    List (K × V) → K → V → List (K × V)
  | [], k, v => [(k, v)]
  | (k', v') :: rest, k, v =>
      if k' = k then (k', v) :: rest else (k', v') :: dictWrite rest k v

/-- Association-list lookup. -/
def dictGet {K V : Type} [DecidableEq K] : List (K × V) → K → Option V
  | [], _ => none
  | (k', v') :: rest, k => if k' = k then some v' else dictGet rest k

/-- One iteration of the reply loop of `ChatGraph.generate_graph`,
transcribing the Python statement by statement.  Note that the
`conections`/`interactions` increments are NOT under the
`if reply_to_id in message_writer:` guard in the source: they always run
when a `reply_to_message_id` key is present, reading whatever
`reply_to` holds — a `NameError` when it was never assigned. -/
def graphStep (dem : String → String) (st : GState) (m : Message) :
    Except GErr GState := do
  let st1 ←
    if m.mtype = "message" then do
      match m.from_ with
      | none => Except.error GErr.keyError
      | some f =>
        let users' :=
          if (dictGet st.users m.from_id).isNone then
            match f with
            | some name => dictWrite st.users m.from_id (dem name)
            | none => st.users
          else st.users
        pure { st with users := users',
                       writer := dictWrite st.writer m.id m.from_id }
    else pure st
  match m.reply_to_message_id with
  | none => pure st1
  | some rt =>
    let reply_from := m.from_id
    let st2 :=
      match rt with
      | some rid =>
          match dictGet st1.writer rid with
          | some w => { st1 with reply_to := some w }
          | none => st1
      | none => st1
    match st2.reply_to with
    | none => Except.error GErr.nameError
    | some rto =>
        pure { st2 with
          conections := bump st2.conections (reply_from, rto),
          interactions := bump (bump st2.interactions reply_from) rto }

/-- The whole reply loop of `ChatGraph.generate_graph`. -/
def replyLoop (dem : String → String) (msgs : List Message) :
    Except GErr GState :=
  msgs.foldlM (graphStep dem) initG

/-- Hex digit loop of printf's `%x` with explicit fuel (the fuel is always
sufficient since each step divides the value by 16): minimal lowercase hex
digits of `v`, empty for `0`. -/
def hexDigitsF : Nat → Nat → List Char
  | _, 0 => []
  | 0, _ + 1 => []
  | f + 1, v + 1 =>
      hexDigitsF f ((v + 1) / 16) ++ [Nat.digitChar ((v + 1) % 16)]

/-- Minimal lowercase hex digits of `v` (empty for `0`). -/
def hexDigits (v : Nat) : List Char := hexDigitsF v v

/-- printf's `%02x`: minimal lowercase hex, left-padded with `0` to width
at least two.  `256` renders as the three digits `100`. -/
def pyHexFmt (v : Nat) : String :=
  let ds := if v = 0 then ['0'] else hexDigits v
  String.mk (if ds.length < 2 then '0' :: ds else ds)

/-- The `i`-th colour produced by `ChatGraph.red2blue(n)`:
`'#%02x%02x%02x' % (int(256 - d*i), 0, int(d*i))` with `d = 256 / n`,
the two `int(...)` values taken as exact floors. -/
def colorAt (n i : Nat) : String :=
  "#" ++ pyHexFmt ((256 * n - 256 * i) / n) ++ pyHexFmt 0
      ++ pyHexFmt ((256 * i) / n)

/-- `ChatGraph.red2blue`: `none` models the `ZeroDivisionError` raised by
`d = 256 / n` when `n = 0`; otherwise the `n` colours of the loop. -/
def red2blue (n : Nat) : Option (List String) :=
  if n = 0 then none
  else some ((List.range n).map (fun i => colorAt n i))

/-- The `value_color_dict` built by `generate_graph`: write
`colors[i]` under key `sorted_node_value[i]` for each `i`, later writes
overwriting earlier ones, then look a value up. -/
def value_color_dict (node_value : List Nat) (colors : List String)
    (v : Nat) : Option String :=
  ((sortD (fun x => x) node_value).zip colors).foldl
    (fun f p w => if w = p.1 then some p.2 else f w) (fun _ => none) v

/-- The colouring stage of `ChatGraph.generate_graph` after the reply
loop: node values (interactions + 1, or 1), the gradient colours, and the
per-node colours via `value_color_dict`.  A `none` from `red2blue` is the
`ZeroDivisionError` of `256 / 0`. -/
def generate_graph (dem : String → String) (msgs : List Message) :
    Except GErr
      (List (String × String) × List Nat × List String ×
       List (Option String)) := do
  let gs ← replyLoop dem msgs
  let node_value := gs.users.map (fun u =>
    match dictGet gs.interactions u.1 with
    | none => 1
    | some c => c + 1)
  match red2blue gs.users.length with
  | none => Except.error GErr.zeroDiv
  | some colors =>
      pure (gs.users, node_value, colors,
        node_value.map (fun v => value_color_dict node_value colors v))

/-- A word tokenizer for witnesses: split on spaces, drop empty words. -/
def splitWS : List Char → List (List Char)
  | [] => [[]]
  | c :: cs =>
      if c = ' ' then [] :: splitWS cs
      else match splitWS cs with
        | [] => [[c]]
        | w :: ws => (c :: w) :: ws

/-- A concrete `word_tokenize` instantiation for witnesses. -/
def wTok (s : String) : List String :=
  ((splitWS s.data).filter (fun w => w ≠ [])).map String.mk

/-- A concrete identity `Normalizer.normalize` for witnesses. -/
def wNorm (s : String) : String := s

/-- A message whose text contains a question mark not at the end of any
sentence. -/
def qmarkMsg : Message :=
  ⟨1, "message", some (some (MText.str "a?b")), some (some "A"), "a", none⟩

/-- A question message followed by a reply whose `from` is JSON null and
whose `text` is JSON null. -/
def nullFromReply : List Message :=
  [⟨1, "message", some (some (MText.str "?")), some (some "A"), "a", none⟩,
   ⟨2, "message", none, some none, "b", some (some 1)⟩]

/-- A message replying to an id that no message introduced. -/
def unknownReplyMsg : Message :=
  ⟨2, "message", none, some (some "A"), "u1", some (some 999)⟩

/-- A message whose text is a fragment whose type is not whitelisted by
`generate_word_cloud`. -/
def linkMsg : Message :=
  ⟨1, "message", some (some (MText.list [Frag.fobj "link" "X"])),
   some (some "A"), "a", none⟩

/-- A message whose text is the empty fragment list. -/
def emptyListMsg : Message :=
  ⟨1, "message", some (some (MText.list [])), some (some "A"), "a", none⟩

/-! ## Lemmas: hex formatting and colour distinctness -/

theorem hexF_zero (f : Nat) : hexDigitsF f 0 = [] := by cases f <;> rfl

theorem hexF_small (f v : Nat) (h1 : 1 ≤ v) (h2 : v < 16) :
    hexDigitsF (f + 1) v = [Nat.digitChar v] := by
  obtain ⟨w, rfl⟩ : ∃ w, v = w + 1 := ⟨v - 1, by omega⟩
  show hexDigitsF f ((w + 1) / 16) ++ [Nat.digitChar ((w + 1) % 16)] = _
  rw [Nat.div_eq_of_lt h2, hexF_zero, Nat.mod_eq_of_lt h2]
  rfl

theorem hex_small (v : Nat) (h1 : 1 ≤ v) (h2 : v < 16) :
    hexDigits v = [Nat.digitChar v] := by
  obtain ⟨w, rfl⟩ : ∃ w, v = w + 1 := ⟨v - 1, by omega⟩
  exact hexF_small w _ h1 h2

theorem hex_two (v : Nat) (h1 : 16 ≤ v) (h2 : v < 256) :
    hexDigits v = [Nat.digitChar (v / 16), Nat.digitChar (v % 16)] := by
  obtain ⟨w, rfl⟩ : ∃ w, v = w + 1 := ⟨v - 1, by omega⟩
  show hexDigitsF w ((w + 1) / 16) ++ [Nat.digitChar ((w + 1) % 16)] = _
  obtain ⟨g, rfl⟩ : ∃ g, w = g + 1 := ⟨w - 1, by omega⟩
  rw [hexF_small g _ (by omega) (by omega)]
  rfl

theorem dc_inj : ∀ a < 16, ∀ b < 16,
    Nat.digitChar a = Nat.digitChar b → a = b := by decide

theorem pyHexFmt_lt256 (v : Nat) (h : v < 256) :
    pyHexFmt v
      = String.mk [Nat.digitChar (v / 16), Nat.digitChar (v % 16)] := by
  rcases Nat.eq_zero_or_pos v with rfl | hpos
  · rfl
  rcases Nat.lt_or_ge v 16 with h16 | h16
  · unfold pyHexFmt
    rw [if_neg (by omega), hex_small v hpos h16]
    rw [Nat.div_eq_of_lt h16, Nat.mod_eq_of_lt h16]
    rfl
  · unfold pyHexFmt
    rw [if_neg (by omega), hex_two v h16 h]
    rfl

theorem pyHexFmt_data (v : Nat) (h : v < 256) :
    (pyHexFmt v).data = [Nat.digitChar (v / 16), Nat.digitChar (v % 16)] := by
  rw [pyHexFmt_lt256 v h]

theorem blue_lt (n i : Nat) (hn : 0 < n) (hi : i < n) : 256 * i / n < 256 := by
  rw [Nat.div_lt_iff_lt_mul hn]
  omega

theorem blue_mono (n i j : Nat) (hn : 0 < n) (hn2 : n ≤ 256) (hij : i < j) :
    256 * i / n < 256 * j / n := by
  have h1 : (256 * i + n) / n ≤ 256 * j / n := by
    apply Nat.div_le_div_right
    omega
  rw [Nat.add_div_right _ hn] at h1
  omega

theorem colorAt_inj (n i j : Nat) (hn2 : n ≤ 256) (hi : i < n) (hj : j < n)
    (hij : i < j) : colorAt n i ≠ colorAt n j := by
  have hn : 0 < n := by omega
  intro h
  have hbi := blue_lt n i hn hi
  have hbj := blue_lt n j hn hj
  have hd : (colorAt n i).data.reverse = (colorAt n j).data.reverse := by
    rw [h]
  rw [colorAt, colorAt] at hd
  simp only [String.data_append, pyHexFmt_data _ hbi, pyHexFmt_data _ hbj,
    List.reverse_append, List.reverse_cons, List.reverse_nil,
    List.nil_append, List.cons_append, List.append_assoc] at hd
  have e2 := List.head_eq_of_cons_eq hd
  have e1 := List.head_eq_of_cons_eq (List.tail_eq_of_cons_eq hd)
  have q2 := dc_inj _ (Nat.mod_lt _ (by omega)) _ (Nat.mod_lt _ (by omega)) e2
  have q1 := dc_inj _ (by omega) _ (by omega) e1
  have := blue_mono n i j hn hn2 hij
  omega

theorem colors_pairwise (n : Nat) (hn2 : n ≤ 256) :
    ((List.range n).map (fun i => colorAt n i)).Pairwise
      (fun a b => a ≠ b) := by
  rw [List.pairwise_map]
  refine (List.pairwise_lt_range n).imp_of_mem ?_
  intro a b ha hb hab
  exact colorAt_inj n a b hn2 (List.mem_range.mp ha) (List.mem_range.mp hb)
    hab

/-! ## Lemmas: the stable descending sort -/

theorem insertD_perm {α : Type} (k : α → Nat) (x : α) (l : List α) :
    (insertD k x l).Perm (x :: l) := by
  induction l with
  | nil => simp [insertD]
  | cons h t ih =>
    rw [insertD]
    split
    · exact List.Perm.refl _
    · exact (ih.cons h).trans (List.Perm.swap x h t)

theorem mem_insertD {α : Type} (k : α → Nat) (x y : α) (l : List α) :
    y ∈ insertD k x l ↔ y = x ∨ y ∈ l := by
  rw [(insertD_perm k x l).mem_iff, List.mem_cons]

theorem insertD_sorted {α : Type} (k : α → Nat) (x : α) (l : List α)
    (hs : l.Pairwise (fun a b => k b ≤ k a)) :
    (insertD k x l).Pairwise (fun a b => k b ≤ k a) := by
  induction l with
  | nil => simp [insertD]
  | cons h t ih =>
    rw [List.pairwise_cons] at hs
    rw [insertD]
    split
    · rename_i hlt
      refine List.pairwise_cons.mpr ⟨?_, List.pairwise_cons.mpr hs⟩
      intro b hb
      rw [List.mem_cons] at hb
      rcases hb with rfl | hb
      · omega
      · have := hs.1 b hb; omega
    · rename_i hge
      refine List.pairwise_cons.mpr ⟨?_, ih hs.2⟩
      intro b hb
      rcases (mem_insertD k x b t).mp hb with rfl | hb
      · omega
      · exact hs.1 b hb

theorem sortD_aux_perm {α : Type} (k : α → Nat) (l : List α) :
    ∀ acc, (l.foldl (fun a x => insertD k x a) acc).Perm (acc ++ l) := by
  induction l with
  | nil => intro acc; simp
  | cons x rest ih =>
    intro acc
    have h1 : (rest.foldl (fun a x => insertD k x a) (insertD k x acc)).Perm
        (insertD k x acc ++ rest) := ih _
    have h2 : (insertD k x acc ++ rest).Perm ((x :: acc) ++ rest) :=
      (insertD_perm k x acc).append_right rest
    have h3 : ((x :: acc) ++ rest).Perm (acc ++ x :: rest) :=
      List.perm_middle.symm
    exact (h1.trans h2).trans h3

theorem sortD_perm {α : Type} (k : α → Nat) (l : List α) :
    (sortD k l).Perm l := sortD_aux_perm k l []

theorem sortD_sorted {α : Type} (k : α → Nat) (l : List α) :
    (sortD k l).Pairwise (fun a b => k b ≤ k a) := by
  have aux : ∀ acc, acc.Pairwise (fun a b => k b ≤ k a) →
      (l.foldl (fun a x => insertD k x a) acc).Pairwise
        (fun a b => k b ≤ k a) := by
    induction l with
    | nil => intro acc h; exact h
    | cons x rest ih => intro acc h; exact ih _ (insertD_sorted k x acc h)
  exact aux [] List.Pairwise.nil

theorem sortD_length {α : Type} (k : α → Nat) (l : List α) :
    (sortD k l).length = l.length := (sortD_perm k l).length_eq

theorem mem_sortD {α : Type} (k : α → Nat) (y : α) (l : List α) :
    y ∈ sortD k l ↔ y ∈ l := (sortD_perm k l).mem_iff

theorem insertD_filter {α : Type} (k : α → Nat) (x : α) (l : List α)
    (c : Nat) (hs : l.Pairwise (fun a b => k b ≤ k a)) :
    (insertD k x l).filter (fun y => k y == c)
      = l.filter (fun y => k y == c)
        ++ (if k x == c then [x] else []) := by
  induction l with
  | nil => simp [insertD]; split <;> simp_all
  | cons h t ih =>
    rw [List.pairwise_cons] at hs
    rw [insertD]
    split
    · rename_i hlt
      by_cases hxc : k x = c
      · have hnone : ∀ b ∈ h :: t, ¬(k b = c) := by
          intro b hb
          rw [List.mem_cons] at hb
          rcases hb with rfl | hb
          · omega
          · have := hs.1 b hb; omega
        rw [List.filter_cons_of_pos (by simp [hxc])]
        rw [List.filter_eq_nil_iff.mpr
          (by intro b hb; simp [hnone b hb])]
        simp [hxc]
      · rw [List.filter_cons_of_neg (by simp [hxc])]
        simp [hxc]
    · rename_i hge
      rw [List.filter_cons, List.filter_cons]
      split <;> simp [ih hs.2]

theorem sortD_filter {α : Type} (k : α → Nat) (l : List α) (c : Nat) :
    (sortD k l).filter (fun y => k y == c)
      = l.filter (fun y => k y == c) := by
  have aux : ∀ acc, acc.Pairwise (fun a b => k b ≤ k a) →
      (l.foldl (fun a x => insertD k x a) acc).filter (fun y => k y == c)
        = acc.filter (fun y => k y == c)
          ++ l.filter (fun y => k y == c) := by
    induction l with
    | nil => intro acc h; simp
    | cons x rest ih =>
      intro acc h
      rw [List.foldl_cons, ih _ (insertD_sorted k x acc h),
        insertD_filter k x acc c h, List.filter_cons]
      split <;> simp
  simpa using aux [] List.Pairwise.nil

/-! ## Lemmas: last-write-wins dictionary on sorted keys -/

theorem dict_stay (pairs : List (Nat × String)) (f0 : Nat → Option String)
    (v : Nat) (h : ∀ p ∈ pairs, p.1 ≠ v) :
    (pairs.foldl (fun f p w => if w = p.1 then some p.2 else f w) f0) v
      = f0 v := by
  induction pairs generalizing f0 with
  | nil => rfl
  | cons q rest ih =>
    rw [List.foldl_cons, ih _ (fun p hp => h p (by simp [hp]))]
    exact if_neg (fun hq => h q (by simp) hq.symm)

theorem dict_lookup (sv : List Nat) :
    ∀ (cs : List String) (f0 : Nat → Option String) (v : Nat),
    sv.Pairwise (fun a b => b ≤ a) → sv.length = cs.length → v ∈ sv →
    ((sv.zip cs).foldl (fun f p w => if w = p.1 then some p.2 else f w)
        f0) v
      = cs[(sv.filter (fun y => decide (v < y))).length
           + (sv.filter (fun y => y == v)).length - 1]? := by
  induction sv with
  | nil => intro cs f0 v _ _ hv; cases hv
  | cons u sv' ih =>
    intro cs f0 v hs hlen hv
    rcases cs with _ | ⟨c, cs'⟩
    · simp at hlen
    rw [List.pairwise_cons] at hs
    have hlen' : sv'.length = cs'.length := by simpa using hlen
    have step : ((u :: sv').zip (c :: cs')) = (u, c) :: sv'.zip cs' := rfl
    by_cases huv : u = v
    · subst huv
      have hA : sv'.filter (fun y => decide (u < y)) = [] := by
        apply List.filter_eq_nil_iff.mpr
        intro b hb
        have := hs.1 b hb
        simp; omega
      have hfa : (u :: sv').filter (fun y => decide (u < y)) = [] := by
        rw [List.filter_cons_of_neg (by simp), hA]
      have hfb : (u :: sv').filter (fun y => y == u)
          = u :: sv'.filter (fun y => y == u) :=
        List.filter_cons_of_pos (by simp)
      rw [hfa, hfb]
      simp only [List.length_nil, List.length_cons, Nat.zero_add,
        Nat.add_sub_cancel]
      by_cases hB : u ∈ sv'
      · have hlt : 0 < (sv'.filter (fun y => y == u)).length := by
          have : u ∈ sv'.filter (fun y => y == u) := by
            rw [List.mem_filter]; exact ⟨hB, by simp⟩
          exact List.length_pos_of_mem this
        rw [step, List.foldl_cons, ih cs' _ u hs.2 hlen' hB, hA]
        simp only [List.length_nil, Nat.zero_add]
        obtain ⟨m, hm⟩ :
            ∃ m, (sv'.filter (fun y => y == u)).length = m + 1 :=
          ⟨_, (Nat.succ_pred_eq_of_pos hlt).symm⟩
        rw [hm]
        simp
      · have hBz : sv'.filter (fun y => y == u) = [] := by
          apply List.filter_eq_nil_iff.mpr
          intro b hb hbu
          exact hB ((by simpa using hbu : b = u) ▸ hb)
        have hnone : ∀ p ∈ sv'.zip cs', p.1 ≠ u := by
          intro p hp hpu
          exact hB (hpu ▸ (List.of_mem_zip hp).1)
        rw [step, List.foldl_cons, dict_stay _ _ _ hnone, hBz]
        simp
    · have hv' : v ∈ sv' := by
        rcases List.mem_cons.mp hv with rfl | h
        · exact absurd rfl huv
        · exact h
      have huv2 : v < u := by
        have := hs.1 v hv'
        omega
      have hfa : (u :: sv').filter (fun y => decide (v < y))
          = u :: sv'.filter (fun y => decide (v < y)) :=
        List.filter_cons_of_pos (by simpa using huv2)
      have hfb : (u :: sv').filter (fun y => y == v)
          = sv'.filter (fun y => y == v) :=
        List.filter_cons_of_neg (by simpa using huv)
      have hB1 : 0 < (sv'.filter (fun y => y == v)).length := by
        have : v ∈ sv'.filter (fun y => y == v) := by
          rw [List.mem_filter]; exact ⟨hv', by simp⟩
        exact List.length_pos_of_mem this
      rw [hfa, hfb, step, List.foldl_cons, ih cs' _ v hs.2 hlen' hv']
      simp only [List.length_cons]
      have harith : (sv'.filter (fun y => decide (v < y))).length + 1
            + (sv'.filter (fun y => y == v)).length - 1
          = ((sv'.filter (fun y => decide (v < y))).length
             + (sv'.filter (fun y => y == v)).length - 1) + 1 := by omega
      rw [harith]
      simp

theorem filter_gt_count (v1 v2 : Nat) (h : v2 < v1) (l : List Nat) :
    (l.filter (fun y => decide (v1 < y))).length
      + (l.filter (fun y => y == v1)).length
      ≤ (l.filter (fun y => decide (v2 < y))).length := by
  induction l with
  | nil => simp
  | cons b t ih =>
    simp only [List.filter_cons]
    by_cases hb2 : b = v1
    · subst hb2
      simp [show ¬(b < b) from by omega, show v2 < b from h]
      omega
    · by_cases hb1 : v1 < b
      · have hb0 : v2 < b := by omega
        simp [hb1, hb2, hb0]
        omega
      · by_cases hb0 : v2 < b
        · simp [hb1, hb2, hb0]
          omega
        · simp [hb1, hb2, hb0]
          omega

theorem filter_AB_le (v : Nat) (l : List Nat) :
    (l.filter (fun y => decide (v < y))).length
      + (l.filter (fun y => y == v)).length ≤ l.length := by
  induction l with
  | nil => simp
  | cons b t ih =>
    simp only [List.filter_cons, List.length_cons]
    by_cases hb2 : b = v
    · subst hb2
      simp [show ¬(b < b) from by omega]
      omega
    · by_cases hb1 : v < b
      · simp [hb1, hb2]
        omega
      · simp [hb1, hb2]
        omega

theorem vcd_mono (vals : List Nat) (cs : List String) (v1 v2 : Nat)
    (hlen : vals.length = cs.length) (h1 : v1 ∈ vals) (h2 : v2 ∈ vals)
    (hlt : v2 < v1) :
    ∃ i1 i2, i1 ≤ i2 ∧ i2 < cs.length ∧
      value_color_dict vals cs v1 = cs[i1]? ∧
      value_color_dict vals cs v2 = cs[i2]? := by
  set sv := sortD (fun x => x) vals with hsv
  have hsort : sv.Pairwise (fun a b => b ≤ a) := sortD_sorted _ vals
  have hlen2 : sv.length = cs.length := by rw [hsv, sortD_length, hlen]
  have hm1 : v1 ∈ sv := (mem_sortD _ v1 vals).mpr h1
  have hm2 : v2 ∈ sv := (mem_sortD _ v2 vals).mpr h2
  have hB1 : 0 < (sv.filter (fun y => y == v1)).length :=
    List.length_pos_of_mem (List.mem_filter.mpr ⟨hm1, by simp⟩)
  have hB2 : 0 < (sv.filter (fun y => y == v2)).length :=
    List.length_pos_of_mem (List.mem_filter.mpr ⟨hm2, by simp⟩)
  have hcount := filter_gt_count v1 v2 hlt sv
  have hab := filter_AB_le v2 sv
  refine ⟨(sv.filter (fun y => decide (v1 < y))).length
           + (sv.filter (fun y => y == v1)).length - 1,
          (sv.filter (fun y => decide (v2 < y))).length
           + (sv.filter (fun y => y == v2)).length - 1, ?_, ?_, ?_, ?_⟩
  · omega
  · omega
  · exact dict_lookup sv cs _ v1 hsort hlen2 hm1
  · exact dict_lookup sv cs _ v2 hsort hlen2 hm2

/-! ## Claim C1 -/

/-- C1: the claim says a reply whose `reply_to_message_id` was never
introduced is ignored by every aggregation with no crash.  That is true of
`get_top_users` (the `defaultdict` lookup yields `False`, no user is
recorded), but `generate_graph` increments `conections`/`interactions`
OUTSIDE the `if reply_to_id in message_writer:` guard, so on a chat whose
first reply targets an unknown id the loop reads the never-assigned local
`reply_to` and raises `NameError`: the code crashes where the claim (and
the code's own guard) say the reply is ignored. -/
theorem c1_unknown_reply_crashes :
    replyLoop (fun s => s) [unknownReplyMsg] = Except.error GErr.nameError
    ∧ get_top_users oneSentence [unknownReplyMsg] 10 = some [] := by
  constructor <;> rfl

/-! ## Claim C8 -/

/-- C8: `red2blue` needs `n ≥ 1`: at `n = 0` the division `256 / n`
raises `ZeroDivisionError` (modelled by `none`), so `generate_graph`
fails on a chat with zero distinct users; for every `n ≥ 1` `red2blue`
reaches no error branch. -/
theorem c8_red2blue_division (n : Nat) (dem : String → String)
    (msgs : List Message) (gs : GState) (h1 : 1 ≤ n)
    (h2 : replyLoop dem msgs = Except.ok gs) (h3 : gs.users = []) :
    red2blue 0 = none ∧ (red2blue n).isSome = true
    ∧ generate_graph dem msgs = Except.error GErr.zeroDiv := by
  refine ⟨rfl, ?_, ?_⟩
  · rw [red2blue, if_neg (by omega)]; rfl
  · rw [generate_graph, h2]
    show (match red2blue gs.users.length with
      | none => Except.error GErr.zeroDiv
      | some colors => _) = _
    rw [h3]
    rfl

/-- Witness for C8 at `n = 1` and the empty chat. -/
theorem c8_red2blue_division_witness :
    red2blue 0 = none ∧ (red2blue 1).isSome = true
    ∧ generate_graph (fun s => s) [] = Except.error GErr.zeroDiv :=
  c8_red2blue_division 1 (fun s => s) [] initG (by omega) rfl rfl

/-! ## Claim C9 -/

/-- C9: for every `n ≥ 1` the first colour of `red2blue(n)` is the
8-character string `"#1000000"` — `int(256 - d*0) = 256` renders under
`%02x` as the three digits `100` — and not a 7-character `#`-plus-six-hex
colour. -/
theorem c9_first_color (n : Nat) (h : 1 ≤ n) :
    ∃ cs, red2blue n = some cs ∧ cs.head? = some "#1000000"
      ∧ ("#1000000").length = 8 := by
  refine ⟨(List.range n).map (fun i => colorAt n i), ?_, ?_, by decide⟩
  · rw [red2blue, if_neg (by omega)]
  · obtain ⟨m, rfl⟩ : ∃ m, n = m + 1 := ⟨n - 1, by omega⟩
    rw [List.range_succ_eq_map]
    show some (colorAt (m + 1) 0) = _
    rw [colorAt]
    simp only [Nat.mul_zero, Nat.sub_zero, Nat.zero_div]
    rw [Nat.mul_div_cancel _ (by omega)]
    rfl

/-- Witness for C9 at `n = 3`. -/
theorem c9_first_color_witness :
    ∃ cs, red2blue 3 = some cs ∧ cs.head? = some "#1000000"
      ∧ ("#1000000").length = 8 :=
  c9_first_color 3 (by omega)

/-! ## Claim C4 -/

/-- C4 counterexample: the claim quantifies over every `K ≤ 256`, but at
`K = 0` the gradient colouring does not produce a list of `0` colours —
`red2blue(0)` raises `ZeroDivisionError` (`256 / 0`). -/
theorem c4_zero_users_cx : ¬ ∃ cs, red2blue 0 = some cs := by
  rintro ⟨cs, h⟩
  rw [red2blue] at h
  simp at h

/-- C4 (amended to `1 ≤ K`): for every `1 ≤ K ≤ 256` the gradient
colouring produces exactly `K` pairwise-distinct colours, and the
positional value-to-colour assignment of `generate_graph` is monotone: a
node value strictly greater than another is mapped to a colour appearing
at an index no higher in the red-to-blue list. -/
theorem c4_gradient_colors (K : Nat) (h1 : 1 ≤ K) (h2 : K ≤ 256) :
    ∃ cs, red2blue K = some cs ∧ cs.length = K
      ∧ cs.Pairwise (fun a b => a ≠ b)
      ∧ ∀ vals : List Nat, vals.length = K →
          ∀ v1 ∈ vals, ∀ v2 ∈ vals, v2 < v1 →
          ∃ i1 i2, i1 ≤ i2 ∧ i2 < cs.length
            ∧ value_color_dict vals cs v1 = cs[i1]?
            ∧ value_color_dict vals cs v2 = cs[i2]? := by
  refine ⟨(List.range K).map (fun i => colorAt K i), ?_, by simp, ?_, ?_⟩
  · rw [red2blue, if_neg (by omega)]
  · exact colors_pairwise K h2
  · intro vals hlen v1 hv1 v2 hv2 hlt
    exact vcd_mono vals _ v1 v2 (by simp [hlen]) hv1 hv2 hlt

/-- Witness for C4 at `K = 2`. -/
theorem c4_gradient_colors_witness :
    ∃ cs, red2blue 2 = some cs ∧ cs.length = 2
      ∧ cs.Pairwise (fun a b => a ≠ b)
      ∧ ∀ vals : List Nat, vals.length = 2 →
          ∀ v1 ∈ vals, ∀ v2 ∈ vals, v2 < v1 →
          ∃ i1 i2, i1 ≤ i2 ∧ i2 < cs.length
            ∧ value_color_dict vals cs v1 = cs[i1]?
            ∧ value_color_dict vals cs v2 = cs[i2]? :=
  c4_gradient_colors 2 (by omega) (by omega)

/-! ## Lemmas: the question-marking pass -/

theorem quStep_ids (st : String → List String)
    (acc : List Int × List Message) (m : Message) (i : Int) :
    i ∈ (quStep st acc m).1 ↔ i ∈ acc.1 ∨
      (∃ t, m.text = some (some t) ∧ truthyText m.text = true ∧ m.id = i
        ∧ (st (flatText t)).any hasQM = true) := by
  rcases hm : m.text with _ | mt
  · simp [quStep, hm]
  rcases mt with _ | t
  · simp [quStep, hm]
  rcases t with s | fs
  · by_cases hs : s = ""
    · subst hs
      simp [quStep, hm, truthyText]
    · by_cases hq : (st s).any hasQM
      · simp [quStep, hm, hs, hq, truthyText, flatText]
        rw [List.any_eq_true] at hq
        exact or_congr Iff.rfl ⟨fun h => ⟨h.symm, hq⟩, fun h => h.1.symm⟩
      · simp [quStep, hm, hs, hq, truthyText, flatText]
        intro _ x hx hqx
        exact absurd (List.any_eq_true.mpr ⟨x, hx, hqx⟩) hq
  · by_cases hs : fs.isEmpty
    · simp [quStep, hm, hs, truthyText]
    · by_cases hq : (st (rebuild_msg fs)).any hasQM
      · simp [quStep, hm, hs, hq, truthyText, flatText]
        rw [List.any_eq_true] at hq
        exact or_congr Iff.rfl ⟨fun h => ⟨h.symm, hq⟩, fun h => h.1.symm⟩
      · simp [quStep, hm, hs, hq, truthyText, flatText]
        intro _ x hx hqx
        exact absurd (List.any_eq_true.mpr ⟨x, hx, hqx⟩) hq

theorem quPass_marked_aux (st : String → List String) (i : Int) :
    ∀ (ms : List Message) (acc : List Int × List Message),
      i ∈ (ms.foldl (quStep st) acc).1 ↔ i ∈ acc.1 ∨
        ∃ m ∈ ms, ∃ t, m.text = some (some t) ∧ truthyText m.text = true
          ∧ m.id = i ∧ (st (flatText t)).any hasQM = true := by
  intro ms
  induction ms with
  | nil => intro acc; simp
  | cons m rest ih =>
    intro acc
    rw [List.foldl_cons, ih (quStep st acc m), quStep_ids]
    constructor
    · rintro ((h | h) | h)
      · exact Or.inl h
      · exact Or.inr ⟨m, by simp, h⟩
      · obtain ⟨m', hm', hp⟩ := h
        exact Or.inr ⟨m', by simp [hm'], hp⟩
    · rintro (h | h)
      · exact Or.inl (Or.inl h)
      · obtain ⟨m', hm', hp⟩ := h
        rcases List.mem_cons.mp hm' with rfl | hm'
        · exact Or.inl (Or.inr hp)
        · exact Or.inr ⟨m', hm', hp⟩

theorem quStep_fst_congr (st : String → List String)
    (acc acc' : List Int × List Message) (m : Message)
    (h : acc.1 = acc'.1) : (quStep st acc m).1 = (quStep st acc' m).1 := by
  rcases hm : m.text with _ | mt
  · simp [quStep, hm, h]
  rcases mt with _ | t
  · simp [quStep, hm, h]
  rcases t with s | fs
  · by_cases hs : s = "" <;> by_cases hq : (st s).any hasQM <;>
      simp [quStep, hm, hs, hq, h]
  · by_cases hs : fs.isEmpty <;>
      by_cases hq : (st (rebuild_msg fs)).any hasQM <;>
      simp [quStep, hm, hs, hq, h]

theorem quStep_fst_falsy (st : String → List String)
    (acc : List Int × List Message) (m : Message)
    (h : truthyText m.text = false) : (quStep st acc m).1 = acc.1 := by
  rcases hm : m.text with _ | mt
  · simp [quStep, hm]
  rcases mt with _ | t
  · simp [quStep, hm]
  rcases t with s | fs
  · rw [hm, truthyText] at h
    simp only [decide_eq_false_iff_not, Decidable.not_not] at h
    simp [quStep, hm, h]
  · rw [hm, truthyText] at h
    simp only [Bool.not_eq_false'] at h
    simp [quStep, hm, h]

theorem quPass_fst_filter (st : String → List String) (msgs : List Message) :
    (quPass st (msgs.filter (fun m => truthyText m.text))).1
      = (quPass st msgs).1 := by
  have aux : ∀ (ms : List Message) (acc acc' : List Int × List Message),
      acc.1 = acc'.1 →
      ((ms.filter (fun m => truthyText m.text)).foldl (quStep st) acc).1
        = (ms.foldl (quStep st) acc').1 := by
    intro ms
    induction ms with
    | nil => intro acc acc' h; exact h
    | cons m rest ih =>
      intro acc acc' h
      by_cases hm : truthyText m.text
      · rw [List.filter_cons]
        simp only [hm]
        rw [if_pos trivial, List.foldl_cons, List.foldl_cons]
        exact ih _ _ (quStep_fst_congr st acc acc' m h)
      · have hm' : truthyText m.text = false := by simpa using hm
        rw [List.filter_cons]
        simp only [hm']
        rw [if_neg Bool.false_ne_true, List.foldl_cons]
        exact ih _ _ (h.trans (quStep_fst_falsy st acc' m hm').symm)
  exact aux msgs ([], []) ([], []) rfl

/-! ## Lemmas: the word-cloud aggregation skips falsy texts -/

theorem wcStep_falsy (norm : String → String) (wt : String → List String)
    (sw : List String) (acc : String) (m : Message)
    (h : truthyText m.text = false) : wcStep norm wt sw acc m = acc := by
  rcases hm : m.text with _ | mt
  · simp [wcStep, hm]
  rcases mt with _ | t
  · simp [wcStep, hm]
  rcases t with s | fs
  · rw [hm, truthyText] at h
    simp only [decide_eq_false_iff_not, Decidable.not_not] at h
    simp [wcStep, hm, h]
  · rw [hm, truthyText] at h
    simp only [Bool.not_eq_false'] at h
    simp [wcStep, hm, h]

theorem wc_filter_aux (norm : String → String) (wt : String → List String)
    (sw : List String) :
    ∀ (ms : List Message) (acc : String),
      (ms.filter (fun m => truthyText m.text)).foldl (wcStep norm wt sw) acc
        = ms.foldl (wcStep norm wt sw) acc := by
  intro ms
  induction ms with
  | nil => intro acc; rfl
  | cons m rest ih =>
    intro acc
    by_cases hm : truthyText m.text
    · rw [List.filter_cons]
      simp only [hm]
      rw [if_pos trivial, List.foldl_cons, List.foldl_cons, ih]
    · have hm' : truthyText m.text = false := by simpa using hm
      rw [List.filter_cons]
      simp only [hm']
      rw [if_neg Bool.false_ne_true, List.foldl_cons,
        wcStep_falsy norm wt sw acc m hm', ih]

/-! ## Lemmas: Counter keys are in first-seen order -/

theorem keys_bump {K : Type} [DecidableEq K] (acc : List (K × Nat)) (u : K) :
    (bump acc u).map Prod.fst
      = if u ∈ acc.map Prod.fst then acc.map Prod.fst
        else acc.map Prod.fst ++ [u] := by
  induction acc with
  | nil => simp [bump]
  | cons p rest ih =>
    obtain ⟨k, c⟩ := p
    rw [bump]
    by_cases hk : k = u
    · subst hk
      simp
    · rw [if_neg hk]
      simp only [List.map_cons, ih, List.mem_cons]
      by_cases hu : u ∈ rest.map Prod.fst
      · rw [if_pos hu, if_pos (Or.inr hu)]
      · rw [if_neg hu,
          if_neg (by rintro (h | h); exact hk h.symm; exact hu h)]
        simp

theorem keysFold_firstOccs {K : Type} [DecidableEq K] (us : List K) :
    ∀ ks : List K,
    us.foldl (fun ks u => if u ∈ ks then ks else ks ++ [u]) ks
      = ks ++ (firstOccs us).filter (fun v => v ∉ ks) := by
  induction us with
  | nil => intro ks; simp [firstOccs]
  | cons v rest ih =>
    intro ks
    rw [List.foldl_cons]
    by_cases hv : v ∈ ks
    · rw [if_pos hv, ih ks, firstOccs]
      congr 1
      rw [List.filter_cons_of_neg (by simp [hv]), List.filter_filter]
      apply List.filter_congr
      intro x hx
      by_cases hxk : x ∈ ks
      · simp [hxk]
      · simp [hxk, show x ≠ v from fun h => hxk (h ▸ hv)]
    · rw [if_neg hv, ih (ks ++ [v]), firstOccs]
      rw [List.filter_cons_of_pos (by simp [hv]), List.filter_filter,
        List.append_assoc]
      congr 1
      rw [List.cons_append, List.nil_append]
      congr 1
      apply List.filter_congr
      intro x hx
      by_cases h1 : x ∈ ks <;> by_cases h2 : x = v <;>
        simp [h1, h2, List.mem_append]

theorem counter_keys_fold {K : Type} [DecidableEq K] (us : List K) :
    ∀ acc : List (K × Nat),
    (us.foldl bump acc).map Prod.fst
      = us.foldl (fun ks u => if u ∈ ks then ks else ks ++ [u])
          (acc.map Prod.fst) := by
  induction us with
  | nil => intro acc; rfl
  | cons v rest ih =>
    intro acc
    rw [List.foldl_cons, List.foldl_cons, ih (bump acc v), keys_bump]

theorem counter_keys {K : Type} [DecidableEq K] (us : List K) :
    (counterList us).map Prod.fst = firstOccs us := by
  rw [counterList, counter_keys_fold us [], List.map_nil,
    keysFold_firstOccs us [], List.nil_append]
  apply List.filter_eq_self.mpr
  intro a ha
  simp

/-! ## Claim C3 -/

/-- C3 counterexample: the message text `"a?b"` contains a Latin question
mark but no sentence ENDING in one (hazm's tokenizer, modelled by
`oneSentence`, returns the whole text — it only breaks after punctuation
followed by whitespace), yet `get_top_users` marks the id as a question:
the code tests containment, not a sentence-final mark. -/
theorem c3_contains_not_ends_cx :
    (1 : Int) ∈ (quPass oneSentence [qmarkMsg]).1
    ∧ (oneSentence (flatText (MText.str "a?b"))).all
        (fun s => !endsWithQM s) = true := by
  constructor
  · decide
  · decide

/-- C3 (amended): a message id is marked "is-question" iff the message has
truthy text and some sentence returned by the tokenizer CONTAINS a
question mark — Latin `?` or Arabic `؟`, either mark flagging the same
way — not necessarily a sentence ending in one. -/
theorem c3_question_marking (st : String → List String)
    (msgs : List Message) (i : Int) :
    i ∈ (quPass st msgs).1 ↔
      ∃ m ∈ msgs, ∃ t, m.text = some (some t)
        ∧ truthyText m.text = true ∧ m.id = i
        ∧ (st (flatText t)).any hasQM = true := by
  rw [quPass, quPass_marked_aux]
  simp

/-! ## Claim C2 -/

/-- C2 counterexample: a message whose `text` is null AND whose `from` is
null, replying to a question, is not skipped by `get_top_users`: it
produces the entry `(null, 1)` — the null author — in the result, where
the claim says the message is skipped with no entry. -/
theorem c2_null_from_entry_cx :
    get_top_users oneSentence nullFromReply 10 = some [(none, 1)] := by
  decide

/-- C2 (amended): messages with missing/null (or otherwise falsy) `text`
are skipped by the text-scanning passes — the question-marking pass of
`get_top_users` marks nothing for them and `generate_word_cloud`
aggregates nothing from them (filtering them away changes neither
result).  They are NOT skipped by the reply-counting pass, which also
records null `from` authors (see the counterexample). -/
theorem c2_falsy_text_skipped (st : String → List String)
    (norm : String → String) (wt : String → List String)
    (sw : List String) (msgs : List Message) :
    (quPass st (msgs.filter (fun m => truthyText m.text))).1
        = (quPass st msgs).1
    ∧ wcTextContent norm wt sw (msgs.filter (fun m => truthyText m.text))
        = wcTextContent norm wt sw msgs :=
  ⟨quPass_fst_filter st msgs, wc_filter_aux norm wt sw msgs ""⟩

/-! ## Claim C5 -/

/-- C5: whenever `get_top_users` returns a result, it has at most `top_n`
entries, is sorted in descending order of reply count, and among
equal-count entries keeps the counter's order, which is the first-seen
order of the reply authors (`counter_keys`); on the empty message list
the result is empty. -/
theorem c5_top_users_sorted (st : String → List String)
    (msgs : List Message) (top_n : Int) (r : List (Option String × Nat))
    (h : get_top_users st msgs top_n = some r) :
    get_top_users st [] top_n = some []
    ∧ r.length ≤ top_n.toNat
    ∧ r.Pairwise (fun a b => b.2 ≤ a.2)
    ∧ ∃ us, replyAuthors (quPass st msgs).1 (quPass st msgs).2 = some us
        ∧ (∀ c, ∃ tail, (counterList us).filter (fun p => p.2 == c)
              = r.filter (fun p => p.2 == c) ++ tail)
        ∧ (counterList us).map Prod.fst = firstOccs us := by
  simp only [get_top_users, get_top_users_cd] at h
  obtain ⟨us, hus, hr⟩ := Option.map_eq_some'.mp h
  refine ⟨by simp [get_top_users, get_top_users_cd, quPass, replyAuthors,
    most_common, counterList, sortD], ?_, ?_, us, hus, ?_, counter_keys us⟩
  · rw [← hr, most_common]
    exact List.length_take_le _ _
  · rw [← hr, most_common]
    exact List.Pairwise.sublist (List.take_sublist _ _)
      (sortD_sorted (fun p => p.2) (counterList us))
  · intro c
    refine ⟨(List.drop top_n.toNat
        (sortD (fun p => p.2) (counterList us))).filter
          (fun p => p.2 == c), ?_⟩
    rw [← hr, most_common]
    have h1 := sortD_filter (fun p : Option String × Nat => p.2)
      (counterList us) c
    rw [← h1]
    conv_lhs => rw [← List.take_append_drop top_n.toNat
      (sortD (fun p => p.2) (counterList us))]
    rw [List.filter_append]

/-- Witness for C5 on a two-message chat (a question and one null-author
reply) with `top_n = 1`. -/
theorem c5_top_users_sorted_witness :
    get_top_users oneSentence [] 1 = some []
    ∧ [((none : Option String), 1)].length ≤ (1 : Int).toNat
    ∧ [((none : Option String), 1)].Pairwise (fun a b => b.2 ≤ a.2)
    ∧ ∃ us, replyAuthors (quPass oneSentence nullFromReply).1
          (quPass oneSentence nullFromReply).2 = some us
        ∧ (∀ c, ∃ tail, (counterList us).filter (fun p => p.2 == c)
              = [((none : Option String), 1)].filter
                  (fun p => p.2 == c) ++ tail)
        ∧ (counterList us).map Prod.fst = firstOccs us :=
  c5_top_users_sorted oneSentence nullFromReply 1 [(none, 1)] (by decide)

/-! ## Lemmas: the word-cloud aggregation as a fold over kept fragments -/

theorem wcFrag_foldl (norm : String → String) (wt : String → List String)
    (sw : List String) (fs : List Frag) :
    ∀ acc : String,
    fs.foldl (wcFragStep norm wt sw) acc
      = (fs.filterMap fragKeep).foldl
          (fun a s => a ++ " " ++ remove_stopwords norm wt sw s) acc := by
  induction fs with
  | nil => intro acc; rfl
  | cons f rest ih =>
    intro acc
    rcases f with s | ⟨t, x⟩
    · rw [List.foldl_cons, ih]
      simp [fragKeep, wcFragStep, List.filterMap_cons]
    · by_cases ht : t ∈ wcTypes
      · have htc : wcTypes.contains t = true := by simpa using ht
        rw [List.foldl_cons, ih]
        simp [fragKeep, wcFragStep, List.filterMap_cons, htc, ht,
          List.foldl_cons]
      · have htc : wcTypes.contains t = false := by simpa using ht
        rw [List.foldl_cons, ih]
        simp [fragKeep, wcFragStep, List.filterMap_cons, htc, ht,
          List.foldl_cons]

theorem wcStep_frags (norm : String → String) (wt : String → List String)
    (sw : List String) (acc : String) (m : Message)
    (h : truthyText m.text = true) :
    wcStep norm wt sw acc m
      = (msgFragments m).foldl
          (fun a s => a ++ " " ++ remove_stopwords norm wt sw s) acc := by
  rcases hm : m.text with _ | mt
  · rw [hm] at h; simp [truthyText] at h
  rcases mt with _ | t
  · rw [hm] at h; simp [truthyText] at h
  rcases t with s | fs
  · rw [hm] at h
    simp only [truthyText, decide_eq_true_eq] at h
    simp [wcStep, msgFragments, hm, h]
  · rw [hm] at h
    simp only [truthyText, Bool.not_eq_eq_eq_not, Bool.not_true] at h
    simp only [wcStep, msgFragments, hm, h, Bool.not_false, if_pos rfl]
    exact wcFrag_foldl norm wt sw fs acc

theorem wc_eq_kept (norm : String → String) (wt : String → List String)
    (sw : List String) (msgs : List Message) :
    ∀ acc : String,
    msgs.foldl (wcStep norm wt sw) acc
      = (keptFragments msgs).foldl
          (fun a s => a ++ " " ++ remove_stopwords norm wt sw s) acc := by
  induction msgs with
  | nil => intro acc; rfl
  | cons m rest ih =>
    intro acc
    by_cases hm : truthyText m.text
    · have hk : keptFragments (m :: rest)
          = msgFragments m ++ keptFragments rest := by
        rw [keptFragments, List.filter_cons]
        simp only [hm]
        rw [if_pos trivial, List.flatMap_cons]
        rfl
      rw [List.foldl_cons, ih, hk, List.foldl_append,
        wcStep_frags norm wt sw acc m hm]
    · have hm' : truthyText m.text = false := by simpa using hm
      have hk : keptFragments (m :: rest) = keptFragments rest := by
        rw [keptFragments, List.filter_cons]
        simp only [hm']
        rw [if_neg Bool.false_ne_true]
        rfl
      rw [List.foldl_cons, wcStep_falsy norm wt sw acc m hm', ih, hk]

theorem foldl_str_extends (norm : String → String)
    (wt : String → List String) (sw : List String) (L : List String) :
    ∀ acc : String, ∃ t,
    L.foldl (fun a s => a ++ " " ++ remove_stopwords norm wt sw s) acc
      = acc ++ t := by
  induction L with
  | nil => intro acc; exact ⟨"", (String.append_empty acc).symm⟩
  | cons s rest ih =>
    intro acc
    obtain ⟨t, ht⟩ := ih (acc ++ " " ++ remove_stopwords norm wt sw s)
    refine ⟨" " ++ remove_stopwords norm wt sw s ++ t, ?_⟩
    rw [List.foldl_cons, ht]
    simp [String.append_assoc]

theorem mem_foldl_infix (norm : String → String)
    (wt : String → List String) (sw : List String) (L : List String)
    (s : String) (hs : s ∈ L) :
    ∀ acc : String, ∃ p q,
    L.foldl (fun a s => a ++ " " ++ remove_stopwords norm wt sw s) acc
      = p ++ remove_stopwords norm wt sw s ++ q := by
  induction L with
  | nil => cases hs
  | cons x rest ih =>
    intro acc
    rcases List.mem_cons.mp hs with rfl | hs'
    · obtain ⟨t, ht⟩ := foldl_str_extends norm wt sw rest
        (acc ++ " " ++ remove_stopwords norm wt sw s)
      exact ⟨acc ++ " ", t, by rw [List.foldl_cons, ht]⟩
    · obtain ⟨p, q, hpq⟩ := ih hs'
        (acc ++ " " ++ remove_stopwords norm wt sw x)
      exact ⟨p, q, by rw [List.foldl_cons, hpq]⟩

/-! ## Lemmas: the question pass's in-place text mutation -/

theorem quStep_snd (st : String → List String)
    (acc : List Int × List Message) (m : Message) :
    (quStep st acc m).2 = acc.2 ++ [quMutate m] := by
  rcases hm : m.text with _ | mt
  · simp [quStep, quMutate, hm]
  rcases mt with _ | t
  · simp [quStep, quMutate, hm]
  rcases t with s | fs
  · by_cases hs : s = "" <;> by_cases hq : (st s).any hasQM <;>
      simp [quStep, quMutate, hm, hs, hq]
  · by_cases hs : fs.isEmpty <;>
      by_cases hq : (st (rebuild_msg fs)).any hasQM <;>
      simp [quStep, quMutate, hm, hs, hq]

theorem quPass_snd (st : String → List String) (msgs : List Message) :
    ∀ acc : List Int × List Message,
    (msgs.foldl (quStep st) acc).2 = acc.2 ++ msgs.map quMutate := by
  induction msgs with
  | nil => intro acc; simp
  | cons m rest ih =>
    intro acc
    rw [List.foldl_cons, ih (quStep st acc m), quStep_snd]
    simp

theorem forall2_mutate (msgs : List Message) :
    List.Forall₂ (fun m m' : Message =>
      m'.id = m.id ∧ m'.mtype = m.mtype ∧ m'.from_ = m.from_
      ∧ m'.from_id = m.from_id
      ∧ m'.reply_to_message_id = m.reply_to_message_id
      ∧ m'.text = (match m.text with
          | some (some (MText.list (f :: fs))) =>
              some (some (MText.str (rebuild_msg (f :: fs))))
          | t => t))
    msgs (msgs.map quMutate) := by
  induction msgs with
  | nil => exact List.Forall₂.nil
  | cons m rest ih =>
    refine List.Forall₂.cons ?_ ih
    rcases hm : m.text with _ | mt
    · simp [quMutate, hm]
    rcases mt with _ | t
    · simp [quMutate, hm]
    rcases t with s | fs
    · simp [quMutate, hm]
    · rcases fs with _ | ⟨f, fs'⟩
      · simp [quMutate, hm]
      · simp [quMutate, hm]

/-! ## Claim C7 -/

/-- C7: stop-word removal is idempotent, assuming the external
normalizer-plus-tokenizer round-trips on the rejoined kept tokens
(tokenizing the space-joined filtered tokens returns exactly those
tokens): applying `remove_stopwords` to its own output changes nothing,
and in particular the token lists of the once- and twice-filtered texts
agree. -/
theorem c7_remove_stopwords_idem (norm : String → String)
    (wt : String → List String) (sw : List String) (t : String)
    (h : wt (norm (remove_stopwords norm wt sw t))
        = (wt (norm t)).filter (fun tk => !sw.contains tk)) :
    remove_stopwords norm wt sw (remove_stopwords norm wt sw t)
        = remove_stopwords norm wt sw t
    ∧ wt (norm (remove_stopwords norm wt sw
          (remove_stopwords norm wt sw t)))
        = wt (norm (remove_stopwords norm wt sw t)) := by
  have key : remove_stopwords norm wt sw (remove_stopwords norm wt sw t)
      = remove_stopwords norm wt sw t := by
    rw [remove_stopwords, h, List.filter_filter]
    show pyJoin " " ((wt (norm t)).filter
      (fun a => !sw.contains a && !sw.contains a)) = _
    simp only [Bool.and_self]
    rfl
  exact ⟨key, by rw [key]⟩

/-- Witness for C7 with a concrete tokenizer (split on spaces), identity
normalizer, stop-word list `["the"]` and text `"the cat sat"`. -/
theorem c7_remove_stopwords_idem_witness :
    remove_stopwords wNorm wTok ["the"]
        (remove_stopwords wNorm wTok ["the"] "the cat sat")
      = remove_stopwords wNorm wTok ["the"] "the cat sat"
    ∧ wTok (wNorm (remove_stopwords wNorm wTok ["the"]
        (remove_stopwords wNorm wTok ["the"] "the cat sat")))
      = wTok (wNorm (remove_stopwords wNorm wTok ["the"] "the cat sat")) :=
  c7_remove_stopwords_idem wNorm wTok ["the"] "the cat sat" (by decide)

/-! ## Claim C6 -/

/-- C6 counterexample: a message whose only fragment has type `"link"` —
not in the whitelist `text_link/bold/italic/hashtag/mention/pre` — is
dropped entirely: the aggregated text is empty and the fragment's text
`"X"` appears nowhere in it, where the claim says the text of EVERY
formatted fragment is included. -/
theorem c6_dropped_fragment_cx :
    wcTextContent wNorm wTok [] [linkMsg] = ""
    ∧ linkMsg.text = some (some (MText.list [Frag.fobj "link" "X"]))
    ∧ ¬ ∃ p q, wcTextContent wNorm wTok [] [linkMsg] = p ++ "X" ++ q := by
  refine ⟨by decide, rfl, ?_⟩
  rintro ⟨p, q, hpq⟩
  have h0 : wcTextContent wNorm wTok [] [linkMsg] = "" := by decide
  rw [h0] at hpq
  have hlen := congrArg String.length hpq
  simp only [String.length_append] at hlen
  have hx : "X".length = 1 := rfl
  have he : ("" : String).length = 0 := rfl
  omega

/-- C6 (amended): the aggregation equals the left fold that appends
`" " + remove_stopwords(fragment)` for exactly the kept fragments — the
plain-string fragments and the object fragments whose type is
whitelisted, of the messages with truthy text — in traversal order
(so stop-word removal and normalization run per fragment BEFORE
concatenation, and non-whitelisted fragments are dropped); every kept
fragment's stop-word-removed text occurs inside the aggregate. -/
theorem c6_wc_aggregation (norm : String → String)
    (wt : String → List String) (sw : List String) (msgs : List Message) :
    wcTextContent norm wt sw msgs
      = (keptFragments msgs).foldl
          (fun a s => a ++ " " ++ remove_stopwords norm wt sw s) ""
    ∧ ∀ s, s ∈ keptFragments msgs →
        ∃ p q, wcTextContent norm wt sw msgs
          = p ++ remove_stopwords norm wt sw s ++ q := by
  constructor
  · exact wc_eq_kept norm wt sw msgs ""
  · intro s hs
    rw [wcTextContent, wc_eq_kept norm wt sw msgs ""]
    exact mem_foldl_infix norm wt sw (keptFragments msgs) s hs ""

/-- Witness for C6's inclusion part: the bold fragment `"X"` of a
one-message chat occurs in the aggregate. -/
theorem c6_wc_aggregation_witness :
    ∃ p q, wcTextContent wNorm wTok []
        [⟨1, "message", some (some (MText.list [Frag.fobj "bold" "X"])),
          some (some "A"), "a", none⟩]
      = p ++ remove_stopwords wNorm wTok [] "X" ++ q :=
  (c6_wc_aggregation wNorm wTok []
    [⟨1, "message", some (some (MText.list [Frag.fobj "bold" "X"])),
      some (some "A"), "a", none⟩]).2 "X" (by decide)

/-! ## Claim C10 -/

/-- C10 counterexample: a message whose `text` is the EMPTY fragment list
is falsy, so the question pass skips it: after `get_top_users` its text
is still the list `[]`, not the flattened string `""` the claim
requires. -/
theorem c10_empty_list_not_flattened_cx :
    ((get_top_users_cd oneSentence ⟨[emptyListMsg], ()⟩ 10).2).messages.map
        (fun m => m.text) = [some (some (MText.list []))]
    ∧ some (some (MText.list []))
        ≠ some (some (MText.str (rebuild_msg []))) := by
  constructor
  · decide
  · decide

/-- C10 (amended): `get_top_users` mutates the chat data in place: every
message whose text is a NON-EMPTY fragment list ends up with the
flattened concatenated string in its text field (a message with the
empty-list text is falsy and left untouched), every other field of every
message is unchanged, and the rest of the chat data is unchanged. -/
theorem c10_get_top_users_mutation {ρ : Type} (st : String → List String)
    (cd : ChatData ρ) (n : Int) :
    ((get_top_users_cd st cd n).2).rest = cd.rest
    ∧ List.Forall₂ (fun m m' : Message =>
        m'.id = m.id ∧ m'.mtype = m.mtype ∧ m'.from_ = m.from_
        ∧ m'.from_id = m.from_id
        ∧ m'.reply_to_message_id = m.reply_to_message_id
        ∧ m'.text = (match m.text with
            | some (some (MText.list (f :: fs))) =>
                some (some (MText.str (rebuild_msg (f :: fs))))
            | t => t))
      cd.messages ((get_top_users_cd st cd n).2).messages := by
  refine ⟨rfl, ?_⟩
  have h2 : ((get_top_users_cd st cd n).2).messages
      = cd.messages.map quMutate := by
    show (quPass st cd.messages).2 = _
    rw [quPass, quPass_snd]
    simp
  rw [h2]
  exact forall2_mutate cd.messages
